import Mathlib

/-!
Verification development for the `autoopt` distribution package.

The Python distribution classes are embedded shallowly: every distribution
variant becomes a structure holding its construction parameters, its
`pdf`/`mean` methods become functions on that structure, and fallible
constructors (which raise `ValueError`) become functions into
`Except String _`.  Real-valued arithmetic of the source (numpy floats)
is modelled over `ℝ`; `numpy.round` / Python `round` (round half to even)
is modelled by `npRound`.
-/

namespace AutoOpt

/-- Round half to even on the reals, the rounding used by Python's `round`
and `numpy.round`.  On a value whose fractional part is exactly `1/2` it
picks the even one of the two surrounding integers; elsewhere it agrees
with ordinary rounding to the nearest integer. -/
noncomputable def npRound (x : ℝ) : ℤ :=
  if Int.fract x = 1 / 2 then
    (if Even ⌊x⌋ then ⌊x⌋ else ⌊x⌋ + 1)
  else
    round x

/-- Embedding of `QMixin` (`base.py`): it stores the regulation parameter
`q` that binds a distribution to discrete values. -/
structure QMixin where
  q : ℝ

/-- Embedding of `QMixin.round_to_q` (`base.py`):
`numpy.round(value / q) * q`. -/
noncomputable def QMixin.round_to_q (m : QMixin) (value : ℝ) : ℝ :=
  (npRound (value / m.q) : ℝ) * m.q

/-- Embedding of the state of a constructed `Uniform` (`uniform.py`): the
constructor stores `min_value`, `max_value` and the derived
`__probability = 1 / (max_value - min_value)`. -/
structure Uniform where
  name : String
  min_value : ℝ
  max_value : ℝ
  probability : ℝ

/-- Embedding of `Uniform.__init__` (`uniform.py`): raises when
`min_value >= max_value`, otherwise produces the instance with the stored
probability `1 / (max_value - min_value)`. -/
noncomputable def Uniform.make (parameter_name : String) (min_value max_value : ℝ) :
    Except String Uniform :=
  if min_value ≥ max_value then
    .error "The minimum value has to be smaller than the maximum value"
  else
    .ok ⟨parameter_name, min_value, max_value, 1 / (max_value - min_value)⟩

/-- Embedding of `Uniform.pdf` (`uniform.py`): the stored probability if
`min_value <= x <= max_value`, else `0`. -/
noncomputable def Uniform.pdf (u : Uniform) (x : ℝ) : ℝ :=
  if u.min_value ≤ x ∧ x ≤ u.max_value then u.probability else 0

/-- Embedding of `Uniform.mean` (`uniform.py`):
`0.5 * (min_value + max_value)`. -/
noncomputable def Uniform.mean (u : Uniform) : ℝ :=
  0.5 * (u.min_value + u.max_value)

/-- Embedding of the state of a constructed `QUniform` (`uniform.py`):
a `Uniform` together with the `QMixin` state. -/
structure QUniform extends Uniform, QMixin

/-- Embedding of `QUniform.__init__` (`uniform.py`): delegates validation
to `Uniform.__init__`, then stores `q`. -/
noncomputable def QUniform.make (parameter_name : String) (min_value max_value q : ℝ) :
    Except String QUniform :=
  (Uniform.make parameter_name min_value max_value).map fun u =>
    { toUniform := u, q := q }

/-- Embedding of `QUniform.pdf` (`uniform.py`):
`super().pdf(self.round_to_q(x))`. -/
noncomputable def QUniform.pdf (d : QUniform) (x : ℝ) : ℝ :=
  d.toUniform.pdf (d.toQMixin.round_to_q x)

/-- Embedding of `QUniform.mean` (`uniform.py`):
`self.round_to_q(super().mean())`. -/
noncomputable def QUniform.mean (d : QUniform) : ℝ :=
  d.toQMixin.round_to_q d.toUniform.mean

/-- Embedding of the state of a constructed `Normal` (`normal.py`): the
constructor stores `loc` and `scale` with no validation. -/
structure Normal where
  name : String
  loc : ℝ
  scale : ℝ

/-- Embedding of `Normal.pdf` (`normal.py`):
`1 / sqrt(2 * pi * scale ** 2) * exp(-(x - loc) ** 2 / (2 * scale ** 2))`. -/
noncomputable def Normal.pdf (n : Normal) (x : ℝ) : ℝ :=
  1 / Real.sqrt (2 * Real.pi * n.scale ^ 2) *
    Real.exp (-(x - n.loc) ^ 2 / (2 * n.scale ^ 2))

/-- Modelled from the spec: `Normal.mean` is missing from the source tree
(only the abstract `Distribution.mean` declaration exists there); the
spec states `mean() == loc` for `Normal(loc, scale)`. -/
noncomputable def Normal.mean (n : Normal) : ℝ :=
  n.loc

/-- Embedding of the state of a constructed `QNormal` (`normal.py`):
a `Normal` together with the `QMixin` state; the constructor performs no
validation. -/
structure QNormal extends Normal, QMixin

/-- Embedding of `QNormal.pdf` (`normal.py`):
`super().pdf(self.round_to_q(x))`. -/
noncomputable def QNormal.pdf (d : QNormal) (x : ℝ) : ℝ :=
  d.toNormal.pdf (d.toQMixin.round_to_q x)

/-- Modelled from the spec: `QNormal.mean` is missing from the source tree
(only the abstract `Distribution.mean` declaration exists there); the
spec states `mean() == round_to_q(base.mean())` for every quantized
variant. -/
noncomputable def QNormal.mean (d : QNormal) : ℝ :=
  d.toQMixin.round_to_q d.toNormal.mean

/-- Embedding of the state of a constructed `LogUniform`
(`loguniform.py`): the `Uniform` state plus the derived
`_min_log = log(min_value)` and `_max_log = log(max_value)`. -/
structure LogUniform extends Uniform where
  min_log : ℝ
  max_log : ℝ

/-- Embedding of `LogUniform.__init__` (`loguniform.py`): raises when
`min_value <= 0`, then delegates to `Uniform.__init__` (which raises when
`min_value >= max_value`) and stores the two logarithms. -/
noncomputable def LogUniform.make (parameter_name : String) (min_value max_value : ℝ) :
    Except String LogUniform :=
  if min_value ≤ 0 then
    .error "LogUniform distributions are only defined for positive intervals"
  else
    (Uniform.make parameter_name min_value max_value).map fun u =>
      { toUniform := u, min_log := Real.log min_value, max_log := Real.log max_value }

/-- Embedding of `LogUniform.pdf` (`loguniform.py`):
`1 / (x * (max_log - min_log))` when `x >= 0` and
`min_value <= x <= max_value`, else `0.0`. -/
noncomputable def LogUniform.pdf (d : LogUniform) (x : ℝ) : ℝ :=
  if 0 ≤ x ∧ d.min_value ≤ x ∧ x ≤ d.max_value then
    1 / (x * (d.max_log - d.min_log))
  else
    0

/-- Embedding of `LogUniform.mean` (`loguniform.py`):
`(max_value - min_value) / (max_log - min_log)`. -/
noncomputable def LogUniform.mean (d : LogUniform) : ℝ :=
  (d.max_value - d.min_value) / (d.max_log - d.min_log)

/-- Embedding of the state of a constructed `QLogUniform`
(`loguniform.py`): a `LogUniform` together with the `QMixin` state. -/
structure QLogUniform extends LogUniform, QMixin

/-- Embedding of `QLogUniform.__init__` (`loguniform.py`): delegates
validation to `LogUniform.__init__`, then stores `q`. -/
noncomputable def QLogUniform.make (parameter_name : String) (min_value max_value q : ℝ) :
    Except String QLogUniform :=
  (LogUniform.make parameter_name min_value max_value).map fun d =>
    { toLogUniform := d, q := q }

/-- Embedding of `QLogUniform.pdf` (`loguniform.py`):
`super().pdf(self.round_to_q(x))`. -/
noncomputable def QLogUniform.pdf (d : QLogUniform) (x : ℝ) : ℝ :=
  d.toLogUniform.pdf (d.toQMixin.round_to_q x)

/-- Embedding of `QLogUniform.mean` (`loguniform.py`):
`self.round_to_q(super().mean())`. -/
noncomputable def QLogUniform.mean (d : QLogUniform) : ℝ :=
  d.toQMixin.round_to_q d.toLogUniform.mean

/-- Embedding of the state of a constructed `LogNormal` (`lognormal.py`):
the `Normal` state; the constructor adds no validation. -/
structure LogNormal extends Normal

/-- Embedding of `LogNormal.pdf` (`lognormal.py`):
`super().pdf(log(x)) / x if x > 0 else 0.0`, where `super().pdf` is
`Normal.pdf`. -/
noncomputable def LogNormal.pdf (d : LogNormal) (x : ℝ) : ℝ :=
  if 0 < x then d.toNormal.pdf (Real.log x) / x else 0

/-- Embedding of `LogNormal.mean` (`lognormal.py`):
`exp(loc + scale ** 2 / 2)`. -/
noncomputable def LogNormal.mean (d : LogNormal) : ℝ :=
  Real.exp (d.loc + d.scale ^ 2 / 2)

/-- Embedding of the state of a constructed `QLogNormal`
(`lognormal.py`): a `LogNormal` together with the `QMixin` state; the
constructor performs no validation. -/
structure QLogNormal extends LogNormal, QMixin

/-- Embedding of `QLogNormal.pdf` (`lognormal.py`):
`super().pdf(self.round_to_q(x))`. -/
noncomputable def QLogNormal.pdf (d : QLogNormal) (x : ℝ) : ℝ :=
  d.toLogNormal.pdf (d.toQMixin.round_to_q x)

/-- Embedding of `QLogNormal.mean` (`lognormal.py`):
`self.round_to_q(super().mean())`. -/
noncomputable def QLogNormal.mean (d : QLogNormal) : ℝ :=
  d.toQMixin.round_to_q d.toLogNormal.mean

/-- Embedding of the state of a constructed `WeightedChoice`
(`choice.py`): the parameter name and the insertion-ordered mapping from
choice values to weights, kept as an association list to preserve the
Python dict's insertion order. -/
structure WeightedChoice (α : Type) where
  name : String
  choices : List (α × ℝ)

/-- Embedding of the derived `__weight_sum = sum(choices.values())` of
`WeightedChoice.__init__` (`choice.py`). -/
noncomputable def WeightedChoice.weight_sum {α : Type} (d : WeightedChoice α) : ℝ :=
  (d.choices.map Prod.snd).sum

/-- Embedding of `WeightedChoice.pdf` (`choice.py`): `0.0` when `x` is
not a key, else `choices[x] / weight_sum`. -/
noncomputable def WeightedChoice.pdf {α : Type} [DecidableEq α]
    (d : WeightedChoice α) (x : α) : ℝ :=
  match d.choices.find? (fun c => decide (c.1 = x)) with
  | some c => c.2 / d.weight_sum
  | none => 0

/-- Modelled from the spec: `WeightedChoice.mean` is missing from the
source tree (only the abstract `Distribution.mean` declaration and the
test describing the method exist there).  The spec states: compute the
normalized probability per key in insertion order, form the sum over `i`
of `index_i * probability_i`, round it to the nearest integer index, and
return the key at that index. -/
noncomputable def WeightedChoice.average_index {α : Type} (d : WeightedChoice α) : ℝ :=
  ∑ i ∈ Finset.range d.choices.length,
    (i : ℝ) * ((d.choices.map Prod.snd).getD i 0 / d.weight_sum)

/-- Modelled from the spec: the key lookup step of `WeightedChoice.mean`
(missing from the source tree, see `WeightedChoice.average_index`): the
key at the rounded expected index, `none` when that index is out of
range. -/
noncomputable def WeightedChoice.mean {α : Type} (d : WeightedChoice α) : Option α :=
  (d.choices.map Prod.fst).get? (npRound d.average_index).toNat

/-- A distribution instance of any variant, for the `Distribution.__eq__`
and `Distribution.__hash__` model (`base.py`): every variant carries the
`_name` set by `Distribution.__init__` inside its state. -/
inductive DistValue where
  | uniform (d : Uniform)
  | qUniform (d : QUniform)
  | normalDist (d : Normal)
  | qNormal (d : QNormal)
  | logUniform (d : LogUniform)
  | qLogUniform (d : QLogUniform)
  | logNormal (d : LogNormal)
  | qLogNormal (d : QLogNormal)
  | weightedChoice (d : WeightedChoice String)

/-- Embedding of the `name` property (`base.py`): it returns the stored
`_name` of the instance, whatever the variant. -/
def DistValue.name : DistValue → String
  | .uniform d => d.name
  | .qUniform d => d.toUniform.name
  | .normalDist d => d.name
  | .qNormal d => d.toNormal.name
  | .logUniform d => d.toUniform.name
  | .qLogUniform d => d.toUniform.name
  | .logNormal d => d.toNormal.name
  | .qLogNormal d => d.toNormal.name
  | .weightedChoice d => d.name

/-- The three kinds of operand `Distribution.__eq__` (`base.py`)
distinguishes: an object with a `name` attribute (any distribution), a
plain string, and an object that is neither. -/
inductive EqOperand where
  | dist (d : DistValue)
  | str (s : String)
  | plain

/-- Embedding of `Distribution.__eq__` (`base.py`): compare names when
the other object has a `name` attribute, compare the own name with the
other object when it is a string, return `False` otherwise. -/
def distEq (d : DistValue) (o : EqOperand) : Bool :=
  match o with
  | .dist d2 => d.name == d2.name
  | .str s => d.name == s
  | .plain => false

/-- Embedding of `Distribution.__hash__` (`base.py`): `hash(self.name)`. -/
def distHash (d : DistValue) : UInt64 :=
  d.name.hash

/-- Whether a modelled constructor call produced an instance (`true`) or
raised (`false`). -/
def exceptIsOk {ε α : Type} : Except ε α → Bool
  | .ok _ => true
  | .error _ => false

/-! ### Facts about the rounding model -/

/-- Round half to even fixes the integers. -/
theorem npRound_intCast (n : ℤ) : npRound (n : ℝ) = n := by
  unfold npRound
  rw [Int.fract_intCast]
  norm_num

/-- Round half to even never rounds below the floor. -/
theorem floor_le_npRound (x : ℝ) : ⌊x⌋ ≤ npRound x := by
  unfold npRound
  split
  · split
    · exact le_refl _
    · exact le_of_lt (lt_add_one _)
  · rw [round_eq]
    exact Int.floor_le_floor (by linarith)

/-- Round half to even never rounds above the ceiling. -/
theorem npRound_le_ceil (x : ℝ) : npRound x ≤ ⌈x⌉ := by
  unfold npRound
  split
  · rename_i hfr
    have hlt : (⌊x⌋ : ℝ) < x := by
      have : x - ⌊x⌋ = 1 / 2 := hfr
      linarith
    have hstep : ⌊x⌋ + 1 ≤ ⌈x⌉ := Int.lt_ceil.mpr hlt
    split
    · omega
    · exact hstep
  · rw [round_eq]
    by_contra hcon
    push_neg at hcon
    have h1 : (⌈x⌉ : ℝ) + 1 ≤ ((⌊x + 1 / 2⌋ : ℤ) : ℝ) := by
      have : ⌈x⌉ + 1 ≤ ⌊x + 1 / 2⌋ := by omega
      exact_mod_cast this
    have h2 : ((⌊x + 1 / 2⌋ : ℤ) : ℝ) ≤ x + 1 / 2 := Int.floor_le _
    have h3 : x ≤ (⌈x⌉ : ℝ) := Int.le_ceil x
    linarith

/-! ### Claim theorems -/

/-- C9: for every step `q > 0` and every value `v`, `round_to_q` is
idempotent: `round_to_q (round_to_q v) = round_to_q v`, where
`round_to_q v = round (v / q) * q`. -/
theorem round_to_q_idempotent (m : QMixin) (hq : 0 < m.q) (v : ℝ) :
    m.round_to_q (m.round_to_q v) = m.round_to_q v := by
  unfold QMixin.round_to_q
  rw [mul_div_cancel_right₀ _ (ne_of_gt hq), npRound_intCast]

/-- Witness for C9 at `q = 1`, `v = 1/2`. -/
theorem round_to_q_idempotent_witness :
    0 < (QMixin.mk 1).q ∧
      (QMixin.mk 1).round_to_q ((QMixin.mk 1).round_to_q (1 / 2)) =
        (QMixin.mk 1).round_to_q (1 / 2) :=
  ⟨zero_lt_one, round_to_q_idempotent (QMixin.mk 1) zero_lt_one (1 / 2)⟩

/-- C4: constructing `Uniform` or `QUniform` raises exactly when
`min_value >= max_value`, and constructing `LogUniform` or `QLogUniform`
raises exactly when `min_value <= 0` or `min_value >= max_value`; in the
raising case no instance is produced. -/
theorem constructor_validation (s : String) (a b q : ℝ) :
    (exceptIsOk (Uniform.make s a b) = false ↔ a ≥ b) ∧
    (exceptIsOk (QUniform.make s a b q) = false ↔ a ≥ b) ∧
    (exceptIsOk (LogUniform.make s a b) = false ↔ (a ≤ 0 ∨ a ≥ b)) ∧
    (exceptIsOk (QLogUniform.make s a b q) = false ↔ (a ≤ 0 ∨ a ≥ b)) := by
  by_cases h0 : a ≤ 0 <;> by_cases hab : a ≥ b <;>
    simp [Uniform.make, QUniform.make, LogUniform.make, QLogUniform.make,
      h0, hab, exceptIsOk, Except.map]

/-- C6: for `Uniform(a, b)` with `a < b`, construction succeeds,
`pdf x` is `1 / (b - a)` on the closed interval `[a, b]` and `0`
outside it, and `mean` is `(a + b) / 2`. -/
theorem uniform_pdf_mean (s : String) (a b x : ℝ) (hab : a < b) :
    ∃ u, Uniform.make s a b = .ok u ∧
      u.pdf x = (if a ≤ x ∧ x ≤ b then 1 / (b - a) else 0) ∧
      u.mean = (a + b) / 2 := by
  refine ⟨⟨s, a, b, 1 / (b - a)⟩, ?_, rfl, ?_⟩
  · unfold Uniform.make
    rw [if_neg (not_le.mpr hab)]
  · unfold Uniform.mean
    ring

/-- Witness for C6 at `Uniform("x", 0, 2)`, query point `1`. -/
theorem uniform_pdf_mean_witness :
    (0 : ℝ) < 2 ∧
      ∃ u, Uniform.make "x" 0 2 = .ok u ∧
        u.pdf 1 = (if (0 : ℝ) ≤ 1 ∧ (1 : ℝ) ≤ 2 then 1 / (2 - 0) else 0) ∧
        u.mean = (0 + 2) / 2 :=
  ⟨two_pos, uniform_pdf_mean "x" 0 2 1 two_pos⟩

/-- C7: for `LogUniform(a, b)` with `0 < a < b`, construction succeeds,
`mean` is `(b - a) / (ln b - ln a)`, and `pdf x` is
`1 / (x * (ln b - ln a))` when `x ≥ 0` and `a ≤ x ≤ b`, else `0`. -/
theorem loguniform_pdf_mean (s : String) (a b x : ℝ) (h0 : 0 < a) (hab : a < b) :
    ∃ d, LogUniform.make s a b = .ok d ∧
      d.mean = (b - a) / (Real.log b - Real.log a) ∧
      d.pdf x = (if 0 ≤ x ∧ a ≤ x ∧ x ≤ b then
        1 / (x * (Real.log b - Real.log a)) else 0) := by
  refine ⟨⟨⟨s, a, b, 1 / (b - a)⟩, Real.log a, Real.log b⟩, ?_, rfl, rfl⟩
  unfold LogUniform.make Uniform.make
  rw [if_neg (not_le.mpr h0), if_neg (not_le.mpr hab)]
  rfl

/-- Witness for C7 at `LogUniform("x", 1, 2)`, query point `1`. -/
theorem loguniform_pdf_mean_witness :
    (0 : ℝ) < 1 ∧ (1 : ℝ) < 2 ∧
      ∃ d, LogUniform.make "x" 1 2 = .ok d ∧
        d.mean = (2 - 1) / (Real.log 2 - Real.log 1) ∧
        d.pdf 1 = (if (0 : ℝ) ≤ 1 ∧ (1 : ℝ) ≤ 1 ∧ (1 : ℝ) ≤ 2 then
          1 / (1 * (Real.log 2 - Real.log 1)) else 0) :=
  ⟨zero_lt_one, one_lt_two, loguniform_pdf_mean "x" 1 2 1 zero_lt_one one_lt_two⟩

/-- C8: for every `LogNormal(loc, scale)`, `pdf x` is `0` for `x ≤ 0`
and `Normal(loc, scale).pdf (ln x) / x` for `x > 0`, and `mean` is
`exp(loc + scale ^ 2 / 2)`. -/
theorem lognormal_pdf_mean (d : LogNormal) (x : ℝ) :
    (x ≤ 0 → d.pdf x = 0) ∧
    (0 < x → d.pdf x = d.toNormal.pdf (Real.log x) / x) ∧
    d.mean = Real.exp (d.loc + d.scale ^ 2 / 2) := by
  refine ⟨fun hx => ?_, fun hx => ?_, rfl⟩
  · unfold LogNormal.pdf
    rw [if_neg (not_lt.mpr hx)]
  · unfold LogNormal.pdf
    rw [if_pos hx]

/-- Witness for C8 at `LogNormal("x", 0, 1)`, query points `-1` and `2`. -/
theorem lognormal_pdf_mean_witness :
    LogNormal.pdf ⟨⟨"x", 0, 1⟩⟩ (-1) = 0 ∧
      LogNormal.mean ⟨⟨"x", 0, 1⟩⟩ = Real.exp (0 + 1 ^ 2 / 2) ∧
      LogNormal.pdf ⟨⟨"x", 0, 1⟩⟩ 2 = Normal.pdf ⟨"x", 0, 1⟩ (Real.log 2) / 2 :=
  ⟨(lognormal_pdf_mean ⟨⟨"x", 0, 1⟩⟩ (-1)).1 (by norm_num),
   (lognormal_pdf_mean ⟨⟨"x", 0, 1⟩⟩ (-1)).2.2,
   (lognormal_pdf_mean ⟨⟨"x", 0, 1⟩⟩ 2).2.1 two_pos⟩

/-- C2: for every `Normal(loc, scale)` with `scale > 0`, `mean` is `loc`
and the density at `loc` dominates the density at every query point. -/
theorem normal_mean_pdf_max (n : Normal) (hs : 0 < n.scale) (x : ℝ) :
    n.mean = n.loc ∧ n.pdf x ≤ n.pdf n.loc := by
  refine ⟨rfl, ?_⟩
  unfold Normal.pdf
  have hc : 0 ≤ 1 / Real.sqrt (2 * Real.pi * n.scale ^ 2) := by positivity
  apply mul_le_mul_of_nonneg_left _ hc
  apply Real.exp_le_exp.mpr
  have hloc : -(n.loc - n.loc) ^ 2 / (2 * n.scale ^ 2) = 0 := by
    simp
  rw [hloc]
  apply div_nonpos_of_nonpos_of_nonneg
  · exact neg_nonpos.mpr (sq_nonneg _)
  · positivity

/-- Witness for C2 at `Normal("x", 0, 1)`, query point `2`. -/
theorem normal_mean_pdf_max_witness :
    (0 : ℝ) < (Normal.mk "x" 0 1).scale ∧
      Normal.mean ⟨"x", 0, 1⟩ = 0 ∧
      Normal.pdf ⟨"x", 0, 1⟩ 2 ≤ Normal.pdf ⟨"x", 0, 1⟩ 0 :=
  ⟨zero_lt_one, normal_mean_pdf_max ⟨"x", 0, 1⟩ zero_lt_one 2⟩

/-- C5: for every quantized variant with step `q > 0` and every query
point `x`, the quantized density equals the density of the embedded
unquantized base distribution (which carries the same shape parameters)
at the rounded query point `round_to_q x`. -/
theorem quantized_pdf_eq_base_pdf_at_rounded
    (du : QUniform) (dn : QNormal) (dlu : QLogUniform) (dln : QLogNormal)
    (hu : 0 < du.q) (hn : 0 < dn.q) (hlu : 0 < dlu.q) (hln : 0 < dln.q) (x : ℝ) :
    du.pdf x = du.toUniform.pdf (du.toQMixin.round_to_q x) ∧
    dn.pdf x = dn.toNormal.pdf (dn.toQMixin.round_to_q x) ∧
    dlu.pdf x = dlu.toLogUniform.pdf (dlu.toQMixin.round_to_q x) ∧
    dln.pdf x = dln.toLogNormal.pdf (dln.toQMixin.round_to_q x) :=
  ⟨rfl, rfl, rfl, rfl⟩

/-- Witness for C5 at concrete quantized instances with `q = 1`, query
point `1/3`. -/
theorem quantized_pdf_eq_base_pdf_at_rounded_witness :
    0 < (QUniform.mk ⟨"u", 0, 4, 1 / 4⟩ ⟨1⟩).q ∧
      QUniform.pdf (QUniform.mk ⟨"u", 0, 4, 1 / 4⟩ ⟨1⟩) (1 / 3) =
        Uniform.pdf ⟨"u", 0, 4, 1 / 4⟩ (QMixin.round_to_q ⟨1⟩ (1 / 3)) ∧
      QNormal.pdf (QNormal.mk ⟨"n", 0, 1⟩ ⟨1⟩) (1 / 3) =
        Normal.pdf ⟨"n", 0, 1⟩ (QMixin.round_to_q ⟨1⟩ (1 / 3)) ∧
      QLogUniform.pdf (QLogUniform.mk ⟨⟨"lu", 1, 4, 1 / 3⟩, 0, Real.log 4⟩ ⟨1⟩) (1 / 3) =
        LogUniform.pdf ⟨⟨"lu", 1, 4, 1 / 3⟩, 0, Real.log 4⟩ (QMixin.round_to_q ⟨1⟩ (1 / 3)) ∧
      QLogNormal.pdf (QLogNormal.mk ⟨⟨"ln", 0, 1⟩⟩ ⟨1⟩) (1 / 3) =
        LogNormal.pdf ⟨⟨"ln", 0, 1⟩⟩ (QMixin.round_to_q ⟨1⟩ (1 / 3)) :=
  ⟨zero_lt_one,
    quantized_pdf_eq_base_pdf_at_rounded
      (QUniform.mk ⟨"u", 0, 4, 1 / 4⟩ ⟨1⟩) (QNormal.mk ⟨"n", 0, 1⟩ ⟨1⟩)
      (QLogUniform.mk ⟨⟨"lu", 1, 4, 1 / 3⟩, 0, Real.log 4⟩ ⟨1⟩)
      (QLogNormal.mk ⟨⟨"ln", 0, 1⟩⟩ ⟨1⟩)
      zero_lt_one zero_lt_one zero_lt_one zero_lt_one (1 / 3)⟩

/-- C1: for every quantized variant with step `q > 0`, the quantized
mean equals `round_to_q` applied to the mean of the embedded unquantized
base distribution (which carries the same shape parameters). -/
theorem quantized_mean_eq_rounded_base_mean
    (du : QUniform) (dn : QNormal) (dlu : QLogUniform) (dln : QLogNormal)
    (hu : 0 < du.q) (hn : 0 < dn.q) (hlu : 0 < dlu.q) (hln : 0 < dln.q) :
    du.mean = du.toQMixin.round_to_q du.toUniform.mean ∧
    dn.mean = dn.toQMixin.round_to_q dn.toNormal.mean ∧
    dlu.mean = dlu.toQMixin.round_to_q dlu.toLogUniform.mean ∧
    dln.mean = dln.toQMixin.round_to_q dln.toLogNormal.mean :=
  ⟨rfl, rfl, rfl, rfl⟩

/-- Witness for C1 at concrete quantized instances with `q = 1`. -/
theorem quantized_mean_eq_rounded_base_mean_witness :
    0 < (QUniform.mk ⟨"u", 0, 4, 1 / 4⟩ ⟨1⟩).q ∧
      QUniform.mean (QUniform.mk ⟨"u", 0, 4, 1 / 4⟩ ⟨1⟩) =
        QMixin.round_to_q ⟨1⟩ (Uniform.mean ⟨"u", 0, 4, 1 / 4⟩) ∧
      QNormal.mean (QNormal.mk ⟨"n", 0, 1⟩ ⟨1⟩) =
        QMixin.round_to_q ⟨1⟩ (Normal.mean ⟨"n", 0, 1⟩) ∧
      QLogUniform.mean (QLogUniform.mk ⟨⟨"lu", 1, 4, 1 / 3⟩, 0, Real.log 4⟩ ⟨1⟩) =
        QMixin.round_to_q ⟨1⟩ (LogUniform.mean ⟨⟨"lu", 1, 4, 1 / 3⟩, 0, Real.log 4⟩) ∧
      QLogNormal.mean (QLogNormal.mk ⟨⟨"ln", 0, 1⟩⟩ ⟨1⟩) =
        QMixin.round_to_q ⟨1⟩ (LogNormal.mean ⟨⟨"ln", 0, 1⟩⟩) :=
  ⟨zero_lt_one,
    quantized_mean_eq_rounded_base_mean
      (QUniform.mk ⟨"u", 0, 4, 1 / 4⟩ ⟨1⟩) (QNormal.mk ⟨"n", 0, 1⟩ ⟨1⟩)
      (QLogUniform.mk ⟨⟨"lu", 1, 4, 1 / 3⟩, 0, Real.log 4⟩ ⟨1⟩)
      (QLogNormal.mk ⟨⟨"ln", 0, 1⟩⟩ ⟨1⟩)
      zero_lt_one zero_lt_one zero_lt_one zero_lt_one⟩

/-- C10: equality and hashing of distributions depend only on the
parameter name: two instances of any variants compare equal exactly when
their names are equal, an instance compares equal to a plain string
exactly when the string equals its name, an instance is unequal to an
object with neither a name attribute nor string type, and equally named
instances hash alike. -/
theorem dist_eq_hash_by_name (d1 d2 : DistValue) (s : String) :
    (distEq d1 (.dist d2) = true ↔ d1.name = d2.name) ∧
    (distEq d1 (.str s) = true ↔ d1.name = s) ∧
    distEq d1 .plain = false ∧
    (d1.name = d2.name → distHash d1 = distHash d2) := by
  refine ⟨?_, ?_, rfl, ?_⟩
  · simp [distEq]
  · simp [distEq]
  · intro h
    simp [distHash, h]

/-- Witness for C10: a `Uniform` and a `Normal` that share the name
`"a"` compare equal and hash alike. -/
theorem dist_eq_hash_by_name_witness :
    distEq (DistValue.uniform ⟨"a", 0, 1, 1⟩) (.dist (.normalDist ⟨"a", 0, 1⟩)) = true ∧
      distHash (DistValue.uniform ⟨"a", 0, 1, 1⟩) = distHash (DistValue.normalDist ⟨"a", 0, 1⟩) :=
  ⟨(dist_eq_hash_by_name (.uniform ⟨"a", 0, 1, 1⟩) (.normalDist ⟨"a", 0, 1⟩) "a").1.mpr rfl,
   (dist_eq_hash_by_name (.uniform ⟨"a", 0, 1, 1⟩) (.normalDist ⟨"a", 0, 1⟩) "a").2.2.2 rfl⟩

/-- The sum of a list of reals is the sum of its positional entries. -/
theorem list_sum_eq_range_sum (l : List ℝ) :
    l.sum = ∑ i ∈ Finset.range l.length, l.getD i 0 := by
  induction l with
  | nil => simp
  | cons a t ih =>
    rw [List.sum_cons, List.length_cons, Finset.sum_range_succ']
    simp only [List.getD_cons_succ, List.getD_cons_zero]
    rw [← ih]
    ring

/-- Entries of a list of nonnegative reals read through `getD` with
default `0` are nonnegative. -/
theorem getD_nonneg_of_forall_nonneg (l : List ℝ) (hl : ∀ x ∈ l, 0 ≤ x) (i : ℕ) :
    0 ≤ l.getD i 0 := by
  rw [List.getD_eq_getElem?_getD]
  cases h : l[i]? with
  | none => simp
  | some x =>
    have hx : x ∈ l := by
      obtain ⟨hi, hget⟩ := List.getElem?_eq_some.mp h
      exact hget ▸ List.getElem_mem hi
    simpa [h] using hl x hx

/-- C3: for every `WeightedChoice` over a non-empty insertion-ordered
mapping with positive weights, `mean` forms the sum over `i` of
`index_i * probability_i` with the normalized probabilities taken in
insertion order, rounds it to the nearest integer index, and returns the
key at that index (the rounded index is always in range). -/
theorem weightedChoice_mean_is_key_at_rounded_index {α : Type} (d : WeightedChoice α)
    (hne : d.choices ≠ []) (hw : ∀ c ∈ d.choices, 0 < c.2) :
    ∃ k, (d.choices.map Prod.fst).get? (npRound d.average_index).toNat = some k ∧
      d.mean = some k := by
  have hn : 0 < d.choices.length := List.length_pos.mpr hne
  have hwpos : ∀ x ∈ d.choices.map Prod.snd, 0 < x := by
    intro x hx
    obtain ⟨c, hc, rfl⟩ := List.mem_map.mp hx
    exact hw c hc
  have hwne : d.choices.map Prod.snd ≠ [] := by
    simpa using hne
  have hW : 0 < d.weight_sum := List.sum_pos _ hwpos hwne
  have hgd : ∀ i, 0 ≤ (d.choices.map Prod.snd).getD i 0 :=
    getD_nonneg_of_forall_nonneg _ (fun x hx => (hwpos x hx).le)
  have h0avg : 0 ≤ d.average_index := by
    apply Finset.sum_nonneg
    intro i _
    exact mul_nonneg (Nat.cast_nonneg i) (div_nonneg (hgd i) hW.le)
  have h1avg : d.average_index ≤ (d.choices.length : ℝ) - 1 := by
    have hlen : (d.choices.map Prod.snd).length = d.choices.length := by
      simp
    have hterm : ∀ i ∈ Finset.range d.choices.length,
        (i : ℝ) * ((d.choices.map Prod.snd).getD i 0 / d.weight_sum) ≤
          ((d.choices.length : ℝ) - 1) *
            ((d.choices.map Prod.snd).getD i 0 / d.weight_sum) := by
      intro i hi
      have hi1 : (i : ℝ) ≤ (d.choices.length : ℝ) - 1 := by
        have : i + 1 ≤ d.choices.length := Finset.mem_range.mp hi
        have : (i : ℝ) + 1 ≤ (d.choices.length : ℝ) := by exact_mod_cast this
        linarith
      exact mul_le_mul_of_nonneg_right hi1 (div_nonneg (hgd i) hW.le)
    calc d.average_index
        ≤ ∑ i ∈ Finset.range d.choices.length,
            ((d.choices.length : ℝ) - 1) *
              ((d.choices.map Prod.snd).getD i 0 / d.weight_sum) :=
          Finset.sum_le_sum hterm
      _ = ((d.choices.length : ℝ) - 1) *
            ((∑ i ∈ Finset.range d.choices.length,
              (d.choices.map Prod.snd).getD i 0) / d.weight_sum) := by
          rw [Finset.sum_div, Finset.mul_sum]
      _ = ((d.choices.length : ℝ) - 1) := by
          rw [← hlen, ← list_sum_eq_range_sum]
          have hsum : (d.choices.map Prod.snd).sum = d.weight_sum := rfl
          rw [hsum, div_self (ne_of_gt hW), mul_one]
  have hlo : 0 ≤ npRound d.average_index :=
    le_trans (Int.floor_nonneg.mpr h0avg) (floor_le_npRound _)
  have hhi : npRound d.average_index ≤ (d.choices.length : ℤ) - 1 := by
    refine le_trans (npRound_le_ceil _) (Int.ceil_le.mpr ?_)
    push_cast
    exact h1avg
  have hidx : (npRound d.average_index).toNat < d.choices.length := by
    omega
  have hidxm : (npRound d.average_index).toNat < (d.choices.map Prod.fst).length := by
    simpa using hidx
  refine ⟨(d.choices.map Prod.fst).get ⟨(npRound d.average_index).toNat, hidxm⟩, ?_, ?_⟩
  · exact List.get?_eq_get hidxm
  · unfold WeightedChoice.mean
    exact List.get?_eq_get hidxm

/-- Witness for C3 at `WeightedChoice("c", {"A": 1, "B": 1})`. -/
theorem weightedChoice_mean_is_key_at_rounded_index_witness :
    (WeightedChoice.mk "c" [("A", (1 : ℝ)), ("B", 1)]).choices ≠ [] ∧
      (∀ c ∈ (WeightedChoice.mk "c" [("A", (1 : ℝ)), ("B", 1)]).choices, 0 < c.2) ∧
      ∃ k, ((WeightedChoice.mk "c" [("A", (1 : ℝ)), ("B", 1)]).choices.map
            Prod.fst).get?
          (npRound (WeightedChoice.mk "c" [("A", (1 : ℝ)), ("B", 1)]).average_index).toNat =
          some k ∧
        (WeightedChoice.mk "c" [("A", (1 : ℝ)), ("B", 1)]).mean = some k :=
  ⟨by simp,
   by
     intro c hc
     simp only [List.mem_cons, List.not_mem_nil, or_false] at hc
     rcases hc with h | h <;> simp [h],
   weightedChoice_mean_is_key_at_rounded_index
     (WeightedChoice.mk "c" [("A", (1 : ℝ)), ("B", 1)]) (by simp)
     (by
       intro c hc
       simp only [List.mem_cons, List.not_mem_nil, or_false] at hc
       rcases hc with h | h <;> simp [h])⟩

end AutoOpt
